import Mathlib

/-!
# Verification of the claude-watch session dashboard

A shallow embedding of the core of `claude-watch` (a WezTerm / Claude-Code
session dashboard written in Rust) together with proofs about its
aggregation pipeline (`src/session.rs`), its dashboard state machine and
render loop (`src/ui.rs`), and its CLI dispatch (`src/main.rs`).

Modelling conventions:
* Rust `u64`/`u32` values are embedded as `Nat`; the program only compares
  them, so no overflow behaviour is observable.
* File-system reads, JSON parsing and the WezTerm subprocess are impure;
  they are embedded as explicit oracle parameters (the directory listing,
  a parse function, the set of live pane ids, the per-`cwd` index loader).
* Rust `HashMap` state is embedded as an association list with
  replace-in-place insertion; since `HashMap::into_values` yields its
  values in an unspecified order, the place where the source relies on
  that order takes an explicit `order` parameter constrained to be a
  permutation of the map's values.
* Rust's `sort_by` is a stable sort; it is embedded as a stable insertion
  sort, which computes the same (unique) stable sorting of the list.
-/

/-- `Session` from `src/session.rs` (struct `Session`).  The five fields
after `updated` are `#[serde(skip)]` enrichment fields, always `None`
when produced by `load_sessions`. -/
structure Session where
  session_id : String
  pane_id : String
  cwd : String
  status : String
  notification_message : Option String
  notification_type : Option String
  updated : Nat
  summary : Option String
  first_prompt : Option String
  message_count : Option Nat
  git_branch : Option String
  modified : Option String
deriving DecidableEq, Repr

/-- `SessionIndexEntry` from `src/session.rs`. -/
structure SessionIndexEntry where
  session_id : String
  summary : Option String
  first_prompt : Option String
  message_count : Option Nat
  git_branch : Option String
  modified : Option String
  project_path : Option String
deriving DecidableEq, Repr

/-- Association-list lookup, embedding `HashMap::get`. -/
def lookupA {β : Type} : List (String × β) → String → Option β
  | [], _ => none
  | (k', v) :: rest, k => if k' = k then some v else lookupA rest k

/-- Association-list insert, embedding `HashMap::insert`: replaces the
binding of an existing key, otherwise adds a new one. -/
def insertA {β : Type} : List (String × β) → String → β → List (String × β)
  | [], k, v => [(k, v)]
  | (k', v') :: rest, k, v =>
    if k' = k then (k, v) :: rest else (k', v') :: insertA rest k v

/-- The update a live session applies to the `pane_to_session` map given
the map's current entry for its pane (`src/session.rs:122-128`): replace
an existing entry only when strictly newer, insert when absent. -/
def dedupUpdate (m : List (String × Session)) (s : Session) :
    Option Session → List (String × Session)
  | some existing =>
    if s.updated > existing.updated then insertA m s.pane_id s else m
  | none => insertA m s.pane_id s

/-- One step of the dedup fold in `filter_active_sessions`
(`src/session.rs:116-129`): skip sessions whose pane is not live; keep the
session with strictly greater `updated` per pane (first seen wins ties). -/
def dedupStep (active : List String) (m : List (String × Session)) (s : Session) :
    List (String × Session) :=
  if active.contains s.pane_id then dedupUpdate m s (lookupA m s.pane_id)
  else m

/-- The `pane_to_session` map built by `filter_active_sessions`. -/
def dedupFold (active : List String) (sessions : List Session) :
    List (String × Session) :=
  sessions.foldl (dedupStep active) []

/-- Insert into a list sorted by `updated` descending, before the first
strictly smaller element (so equal keys keep their relative order). -/
def insertDesc (s : Session) : List Session → List Session
  | [] => [s]
  | t :: rest =>
    if s.updated ≥ t.updated then s :: t :: rest else t :: insertDesc s rest

/-- Stable sort by `updated` descending, embedding
`filtered.sort_by(|a, b| b.updated.cmp(&a.updated))` (`src/session.rs:134`):
Rust's `sort_by` is stable, and a stable insertion sort computes the same
unique stable sorting. -/
def sortDesc (l : List Session) : List Session := l.foldr insertDesc []

/-- `filter_active_sessions` (`src/session.rs:110-137`), with the live
pane-id set (obtained from WezTerm in the source) and the iteration order
of `HashMap::into_values` (unspecified in Rust) as explicit parameters;
`order` is meaningful only when it permutes the map's values. -/
def filter_active_sessions_ord
    (order : List (String × Session) → List Session)
    (active : List String) (sessions : List Session) : List Session :=
  sortDesc (order (dedupFold active sessions))

/-- `find_session_by_id` (`src/session.rs:139-141`). -/
def find_session_by_id (sessions : List Session) (session_id : String) :
    Option Session :=
  sessions.find? (fun s => s.session_id = session_id)

/-- Replace every occurrence of character `a` by `b`, the semantics of
Rust's `str::replace(char, &str)` with a one-character replacement. -/
def replaceChar (s : String) (a b : Char) : String :=
  ⟨s.data.map (fun c => if c = a then b else c)⟩

/-- `cwd_to_project_path` (`src/session.rs:143-148`):
`cwd.replace('/', "-").replace('.', "-")`. -/
def cwd_to_project_path (cwd : String) : String :=
  replaceChar (replaceChar cwd '/' '-') '.' '-'

/-- A directory entry as seen by `load_sessions`: file name, extension as
computed by `Path::extension`, and file content (reads are modelled as
succeeding; the claims under study do not involve read failures). -/
structure FileEntry where
  name : String
  ext : Option String
  content : String
deriving DecidableEq, Repr

/-- An error of the session loader carrying the offending path, embedding
the `anyhow` context string `"JSONパースエラー: {path}"`. -/
inductive LoadError where
  | parseError (path : String) (msg : String)
deriving DecidableEq, Repr

/-- How one `.json` entry's parse outcome extends the accumulated list
(`src/session.rs:74-76`): a parse failure aborts with an error naming the
entry, a success appends the session. -/
def parsedEntry (name : String) (sessions : List Session) :
    Except String Session → Except LoadError (List Session)
  | Except.error msg => Except.error (LoadError.parseError name msg)
  | Except.ok s => Except.ok (sessions ++ [s])

/-- The body of `load_sessions`' directory loop for one entry
(`src/session.rs:65-78`): a prior error propagates (the Rust `?` has
already returned); a `.json` entry must parse or the load aborts. -/
def loadStep (parse : String → Except String Session)
    (acc : Except LoadError (List Session)) (e : FileEntry) :
    Except LoadError (List Session) :=
  match acc with
  | Except.error err => Except.error err
  | Except.ok sessions =>
    if e.ext = some "json" then parsedEntry e.name sessions (parse e.content)
    else Except.ok sessions

/-- `load_sessions` (`src/session.rs:57-81`): `dir = none` embeds a
missing `~/.claude/sessions` directory; `parse` embeds
`serde_json::from_str::<Session>`.  Every `.json` entry must parse;
the first failure aborts the whole load. -/
def load_sessions (parse : String → Except String Session)
    (dir : Option (List FileEntry)) : Except LoadError (List Session) :=
  match dir with
  | none => Except.ok []
  | some entries => entries.foldl (loadStep parse) (Except.ok [])

/-- `Result::unwrap_or_default()` as applied to the result of
`load_sessions_index` in `enrich_sessions_with_index`
(`src/session.rs:183`): an error becomes the empty map. -/
def unwrapOrDefault (r : Except String (List (String × SessionIndexEntry))) :
    List (String × SessionIndexEntry) :=
  match r with
  | Except.ok m => m
  | Except.error _ => []

/-- The `cwd_to_index` cache built by the first loop of
`enrich_sessions_with_index` (`src/session.rs:179-186`); `loadIndex`
embeds `load_sessions_index` (a file read plus JSON parse, which can
fail with a parse error). -/
def buildStep
    (loadIndex : String → Except String (List (String × SessionIndexEntry)))
    (m : List (String × List (String × SessionIndexEntry))) (s : Session) :
    List (String × List (String × SessionIndexEntry)) :=
  if (lookupA m s.cwd).isSome then m
  else insertA m s.cwd (unwrapOrDefault (loadIndex s.cwd))

def buildCwdIndex
    (loadIndex : String → Except String (List (String × SessionIndexEntry)))
    (sessions : List Session) :
    List (String × List (String × SessionIndexEntry)) :=
  sessions.foldl (buildStep loadIndex) []

/-- The assignment done by the innermost `if let` of
`enrich_sessions_with_index` (`src/session.rs:191-197`): with a matching
entry, all five enrichment fields are assigned from it; without one the
session is left as it is. -/
def enrichApply (s : Session) : Option SessionIndexEntry → Session
  | none => s
  | some e =>
    { s with summary := e.summary, first_prompt := e.first_prompt,
             message_count := e.message_count, git_branch := e.git_branch,
             modified := e.modified }

/-- The nested lookups of the second loop of `enrich_sessions_with_index`
(`src/session.rs:190-191`): the cached index for the session's `cwd`,
then its entry for the session's `session_id`. -/
def entryLookup (idx : List (String × List (String × SessionIndexEntry)))
    (s : Session) : Option SessionIndexEntry :=
  (lookupA idx s.cwd).bind (fun m => lookupA m s.session_id)

/-- The per-session update of the second loop of
`enrich_sessions_with_index` (`src/session.rs:189-199`). -/
def enrichOne (idx : List (String × List (String × SessionIndexEntry)))
    (s : Session) : Session :=
  enrichApply s (entryLookup idx s)

/-- `enrich_sessions_with_index` (`src/session.rs:177-202`).  The Rust
function mutates the slice and returns `Result<()>`; it has no error path
(index failures are swallowed by `unwrap_or_default`), embedded here as
state passing that always returns `ok`. -/
def enrich_sessions_with_index
    (loadIndex : String → Except String (List (String × SessionIndexEntry)))
    (sessions : List Session) : Except String (List Session) :=
  Except.ok (sessions.map (enrichOne (buildCwdIndex loadIndex sessions)))

/-- The index entry used for a given session by
`enrich_sessions_with_index`, if any. -/
def entryFor
    (loadIndex : String → Except String (List (String × SessionIndexEntry)))
    (sessions : List Session) (s : Session) : Option SessionIndexEntry :=
  entryLookup (buildCwdIndex loadIndex sessions) s

/-- The dashboard state (`App` in `src/ui.rs`): the session list and the
`ListState` selection; `should_quit` and `last_update` play no part in
the properties studied here. -/
structure App where
  sessions : List Session
  selected : Option Nat
deriving DecidableEq, Repr

/-- `App::new` (`src/ui.rs:29-41`): select index 0 when the list is
non-empty, else `ListState::default()` (no selection). -/
def App.new (sessions : List Session) : App :=
  { sessions := sessions
    selected := if sessions.isEmpty then none else some 0 }

/-- The selection kept by `update_sessions` for a non-empty new list
(`src/ui.rs:50-58`): an in-bounds index is kept, an out-of-bounds one is
clamped to the last index, no selection selects index 0. -/
def keepSelection (len : Nat) : Option Nat → Option Nat
  | some idx => if idx ≥ len then some (len - 1) else some idx
  | none => some 0

/-- `App::update_sessions` (`src/ui.rs:44-64`). -/
def App.update_sessions (a : App) (sessions : List Session) : App :=
  if sessions.isEmpty then { sessions := sessions, selected := none }
  else { sessions := sessions,
         selected := keepSelection sessions.length a.selected }

/-- The cyclic successor index computed by `App::next`
(`src/ui.rs:71-80`). -/
def nextIndex (len : Nat) : Option Nat → Nat
  | some i => if i ≥ len - 1 then 0 else i + 1
  | none => 0

/-- `App::next` (`src/ui.rs:66-82`). -/
def App.next (a : App) : App :=
  if a.sessions.isEmpty then a
  else { a with selected := some (nextIndex a.sessions.length a.selected) }

/-- The cyclic predecessor index computed by `App::previous`
(`src/ui.rs:89-98`). -/
def prevIndex (len : Nat) : Option Nat → Nat
  | some i => if i = 0 then len - 1 else i - 1
  | none => 0

/-- `App::previous` (`src/ui.rs:84-100`). -/
def App.previous (a : App) : App :=
  if a.sessions.isEmpty then a
  else { a with selected := some (prevIndex a.sessions.length a.selected) }

/-- `App::selected_session` (`src/ui.rs:102-104`). -/
def App.selected_session (a : App) : Option Session :=
  a.selected.bind (fun i => a.sessions[i]?)

/-- The `App` states reachable through the public operations used by the
render loop. -/
inductive Reachable : App → Prop
  | new (sessions : List Session) : Reachable (App.new sessions)
  | update {a : App} (sessions : List Session) :
      Reachable a → Reachable (a.update_sessions sessions)
  | next {a : App} : Reachable a → Reachable a.next
  | prev {a : App} : Reachable a → Reachable a.previous

/-- One observable event of a `run_tui` loop iteration
(`src/ui.rs:343-376`): either `event::poll` timed out (100 ms passed with
no input) or a key arrived. -/
inductive TuiEvent where
  | timeout
  | keyQ
  | keyDown
  | keyJ
  | keyUp
  | keyK
  | keyEnter
  | keyOther
deriving DecidableEq, Repr

/-- The `run_tui` event loop (`src/ui.rs:343-376`) over a finite prefix of
its event stream; an empty list means the loop is still running at the
observation horizon.  Note the source's periodic-refresh block
(`src/ui.rs:371-375`) is commented out (`TODO: Phase 2`), so a `timeout`
tick leaves the state unchanged. -/
def run_tui_loop : App → List TuiEvent → App × Option String
  | a, [] => (a, none)
  | a, ev :: evs =>
    match ev with
    | TuiEvent.keyQ => (a, none)
    | TuiEvent.keyDown => run_tui_loop a.next evs
    | TuiEvent.keyJ => run_tui_loop a.next evs
    | TuiEvent.keyUp => run_tui_loop a.previous evs
    | TuiEvent.keyK => run_tui_loop a.previous evs
    | TuiEvent.keyEnter =>
      match a.selected_session with
      | some s => (a, some s.session_id)
      | none => run_tui_loop a evs
    | TuiEvent.keyOther => run_tui_loop a evs
    | TuiEvent.timeout => run_tui_loop a evs

/-- The subcommand dispatch of `main` (`src/main.rs:12-78`), applied to
the already-aggregated session list; `jump` embeds `jump_to_pane` and
`tui` the `run_tui`-and-jump branch, both irrelevant to the dispatch
logic studied here.  An `Except.error` outcome is a non-zero process
exit (the `anyhow::Result` returned by `main`). -/
def main_dispatch (jump : String → Except String Unit)
    (tui : Except String Unit)
    (sessions : List Session) (args : List String) : Except String Unit :=
  if sessions.isEmpty then Except.ok ()
  else
    match args with
    | _prog :: cmd :: rest =>
      if cmd = "jump" then
        match rest with
        | [] => Except.error "使い方: claude-watch jump <session_id>"
        | sid :: _ =>
          match find_session_by_id sessions sid with
          | some s => jump s.pane_id
          | none =>
            Except.error ("セッションID " ++ sid ++ " が見つかりません")
      else if cmd = "list" then Except.ok ()
      else if cmd = "tui" ∨ cmd = "watch" then tui
      else Except.ok ()
    | _ => tui

/-- Specification-side helper: how an earlier record combines with the
best later record under the first-seen-wins-ties fold — the later one
survives only with a strictly greater `updated`. -/
def mergeOpt (e : Session) : Option Session → Session
  | none => e
  | some t => if t.updated > e.updated then t else e

/-- Specification-side helper: the survivor `filter_active_sessions` keeps
for pane `p` — the earliest record attaining the maximum `updated` among
the records of a live pane `p`. -/
def pickLatest (active : List String) (p : String) : List Session → Option Session
  | [] => none
  | s :: rest =>
    if s.pane_id = p ∧ active.contains p = true then
      some (mergeOpt s (pickLatest active p rest))
    else pickLatest active p rest

/-! ### Lemmas about the association-list embedding of `HashMap` -/

theorem lookupA_insertA {β : Type} (m : List (String × β)) (k p : String) (v : β) :
    lookupA (insertA m k v) p = if k = p then some v else lookupA m p := by
  induction m with
  | nil => simp [insertA, lookupA]
  | cons kv rest ih =>
    obtain ⟨k', v'⟩ := kv
    by_cases hk : k' = k
    · subst hk
      by_cases hp : k' = p <;> simp [insertA, lookupA, hp]
    · by_cases hp : k' = p
      · subst hp
        have : ¬ k = k' := fun h => hk h.symm
        simp [insertA, hk, lookupA, this]
      · simp [insertA, hk, lookupA, hp, ih]

theorem mem_insertA {β : Type} (m : List (String × β)) (k : String) (v : β)
    (kv : String × β) : kv ∈ insertA m k v → kv ∈ m ∨ kv = (k, v) := by
  induction m with
  | nil => intro h; simpa [insertA] using h
  | cons kv' rest ih =>
    obtain ⟨a, b⟩ := kv'
    by_cases hk : a = k
    · intro h
      simp only [insertA, if_pos hk] at h
      rcases List.mem_cons.mp h with h' | h'
      · right; exact h'
      · left; exact List.mem_cons_of_mem _ h'
    · intro h
      simp only [insertA, if_neg hk] at h
      rcases List.mem_cons.mp h with h' | h'
      · left; rw [h']; exact List.mem_cons_self _ _
      · rcases ih h' with h2 | h2
        · left; exact List.mem_cons_of_mem _ h2
        · right; exact h2

theorem mem_keys_insertA {β : Type} (m : List (String × β)) (k p : String) (v : β) :
    p ∈ (insertA m k v).map Prod.fst ↔ p ∈ m.map Prod.fst ∨ p = k := by
  induction m with
  | nil => simp [insertA]
  | cons kv rest ih =>
    obtain ⟨a, b⟩ := kv
    by_cases hk : a = k
    · subst hk
      simp [insertA, List.mem_cons]
      tauto
    · simp only [insertA, if_neg hk, List.map_cons, List.mem_cons, ih]
      tauto

theorem keys_nodup_insertA {β : Type} (m : List (String × β)) (k : String) (v : β)
    (h : (m.map Prod.fst).Nodup) : ((insertA m k v).map Prod.fst).Nodup := by
  induction m with
  | nil => simp [insertA]
  | cons kv rest ih =>
    obtain ⟨k', v'⟩ := kv
    simp only [List.map_cons, List.nodup_cons] at h
    by_cases hk : k' = k
    · subst hk
      simpa [insertA, List.nodup_cons] using h
    · simp only [insertA, if_neg hk, List.map_cons, List.nodup_cons]
      refine ⟨fun hmem => ?_, ih h.2⟩
      rcases (mem_keys_insertA rest k k' v).mp hmem with hmem | hmem
      · exact h.1 hmem
      · exact hk hmem

theorem lookupA_of_mem {β : Type} (m : List (String × β)) (k : String) (v : β)
    (hnd : (m.map Prod.fst).Nodup) (h : (k, v) ∈ m) : lookupA m k = some v := by
  induction m with
  | nil => simp at h
  | cons kv rest ih =>
    obtain ⟨k', v'⟩ := kv
    simp only [List.map_cons, List.nodup_cons] at hnd
    rcases List.mem_cons.mp h with h | h
    · obtain ⟨h1, h2⟩ := Prod.mk.injEq .. ▸ h
      simp [lookupA, h1.symm, h2]
    · have hne : k' ≠ k := by
        intro he
        subst he
        exact hnd.1 (List.mem_map.mpr ⟨(k', v), h, rfl⟩)
      simp [lookupA, hne, ih hnd.2 h]


/-! ### Lemmas characterising the dedup fold of `filter_active_sessions` -/

theorem pickLatest_mem (active : List String) (p : String) (ss : List Session)
    (s : Session) (h : pickLatest active p ss = some s) :
    s ∈ ss ∧ s.pane_id = p ∧ active.contains p = true := by
  induction ss with
  | nil => simp [pickLatest] at h
  | cons t rest ih =>
    by_cases hc : t.pane_id = p ∧ active.contains p = true
    · rw [pickLatest, if_pos hc] at h
      cases hrest : pickLatest active p rest with
      | none =>
        rw [hrest] at h
        simp only [mergeOpt, Option.some.injEq] at h
        subst h
        exact ⟨List.mem_cons_self _ _, hc⟩
      | some u =>
        rw [hrest] at h
        simp only [mergeOpt, Option.some.injEq] at h
        by_cases hu : u.updated > t.updated
        · rw [if_pos hu] at h
          subst h
          obtain ⟨hm, hrest2⟩ := ih hrest
          exact ⟨List.mem_cons_of_mem _ hm, hrest2⟩
        · rw [if_neg hu] at h
          subst h
          exact ⟨List.mem_cons_self _ _, hc⟩
    · rw [pickLatest, if_neg hc] at h
      obtain ⟨hm, hrest2⟩ := ih h
      exact ⟨List.mem_cons_of_mem _ hm, hrest2⟩

theorem pickLatest_isSome (active : List String) (p : String) (ss : List Session)
    (u : Session) (hu : u ∈ ss) (hup : u.pane_id = p)
    (hact : active.contains p = true) : (pickLatest active p ss).isSome = true := by
  induction ss with
  | nil => simp at hu
  | cons w ws ih =>
    by_cases hc : w.pane_id = p ∧ active.contains p = true
    · rw [pickLatest, if_pos hc]; rfl
    · rw [pickLatest, if_neg hc]
      rcases List.mem_cons.mp hu with hw | hw
      · exact absurd ⟨hw ▸ hup, hact⟩ hc
      · exact ih hw

theorem pickLatest_max (active : List String) (p : String) (ss : List Session)
    (s : Session) (h : pickLatest active p ss = some s) :
    ∀ t ∈ ss, t.pane_id = p → t.updated ≤ s.updated := by
  induction ss generalizing s with
  | nil => simp [pickLatest] at h
  | cons t rest ih =>
    intro u hu hup
    have hact : active.contains p = true := (pickLatest_mem active p _ s h).2.2
    by_cases hc : t.pane_id = p ∧ active.contains p = true
    · rw [pickLatest, if_pos hc] at h
      cases hrest : pickLatest active p rest with
      | none =>
        rw [hrest] at h
        simp only [mergeOpt, Option.some.injEq] at h
        subst h
        rcases List.mem_cons.mp hu with hu | hu
        · subst hu; exact le_refl _
        · exact absurd (pickLatest_isSome active p rest u hu hup hact)
            (by rw [hrest]; simp)
      | some v =>
        rw [hrest] at h
        simp only [mergeOpt, Option.some.injEq] at h
        rcases List.mem_cons.mp hu with hu | hu
        · subst hu
          by_cases hv : v.updated > u.updated
          · rw [if_pos hv] at h; subst h; exact le_of_lt hv
          · rw [if_neg hv] at h; subst h; exact le_refl _
        · by_cases hv : v.updated > t.updated
          · rw [if_pos hv] at h; subst h; exact ih _ hrest u hu hup
          · rw [if_neg hv] at h; subst h
            exact le_trans (ih _ hrest u hu hup) (le_of_not_lt hv)
    · rw [pickLatest, if_neg hc] at h
      rcases List.mem_cons.mp hu with hu | hu
      · subst hu
        exact absurd ⟨hup, hact⟩ hc
      · exact ih _ h u hu hup

theorem pickLatest_earliest (active : List String) (p : String) (ss : List Session)
    (s : Session) (h : pickLatest active p ss = some s) :
    ∃ pre post, ss = pre ++ s :: post ∧
      ∀ t ∈ pre, t.pane_id = p → t.updated < s.updated := by
  induction ss with
  | nil => simp [pickLatest] at h
  | cons t rest ih =>
    by_cases hc : t.pane_id = p ∧ active.contains p = true
    · rw [pickLatest, if_pos hc] at h
      cases hrest : pickLatest active p rest with
      | none =>
        rw [hrest] at h
        simp only [mergeOpt, Option.some.injEq] at h
        subst h
        exact ⟨[], rest, rfl, by simp⟩
      | some v =>
        rw [hrest] at h
        simp only [mergeOpt, Option.some.injEq] at h
        by_cases hv : v.updated > t.updated
        · rw [if_pos hv] at h
          subst h
          obtain ⟨pre, post, heq, hpre⟩ := ih hrest
          refine ⟨t :: pre, post, by rw [heq]; rfl, ?_⟩
          intro u hu hup
          rcases List.mem_cons.mp hu with hu | hu
          · subst hu; exact hv
          · exact hpre u hu hup
        · rw [if_neg hv] at h
          subst h
          exact ⟨[], rest, rfl, by simp⟩
    · rw [pickLatest, if_neg hc] at h
      obtain ⟨pre, post, heq, hpre⟩ := ih h
      refine ⟨t :: pre, post, by rw [heq]; rfl, ?_⟩
      intro u hu hup
      rcases List.mem_cons.mp hu with hu | hu
      · subst hu
        exact absurd ⟨hup, (pickLatest_mem active p rest s h).2.2⟩ hc
      · exact hpre u hu hup

theorem pickLatest_cons_neg (active : List String) (p : String) (s : Session)
    (rest : List Session) (h : ¬(s.pane_id = p ∧ active.contains p = true)) :
    pickLatest active p (s :: rest) = pickLatest active p rest := by
  rw [pickLatest, if_neg h]

theorem mergeOpt_updated_ge (s : Session) (r : Option Session) :
    s.updated ≤ (mergeOpt s r).updated := by
  cases r with
  | none => exact le_refl _
  | some t => simp only [mergeOpt]; split_ifs <;> omega

theorem mergeOpt_absorb_lt (e s : Session) (r : Option Session)
    (h : e.updated < s.updated) :
    mergeOpt e (some (mergeOpt s r)) = mergeOpt s r := by
  cases r <;> simp only [mergeOpt] <;> split_ifs <;> first | rfl | omega

theorem mergeOpt_absorb_le (e s : Session) (r : Option Session)
    (h : s.updated ≤ e.updated) :
    mergeOpt e (some (mergeOpt s r)) = mergeOpt e r := by
  cases r <;> simp only [mergeOpt] <;> split_ifs <;> first | rfl | omega

/-- How an accumulator entry for a pane combines with the best of the
remaining records under the dedup fold. -/
def mergeAcc (acc r : Option Session) : Option Session :=
  match acc with
  | none => r
  | some e => some (mergeOpt e r)

theorem lookupA_foldl_dedupStep (active : List String) (p : String)
    (ss : List Session) (m : List (String × Session)) :
    lookupA (ss.foldl (dedupStep active) m) p =
      mergeAcc (lookupA m p) (pickLatest active p ss) := by
  induction ss generalizing m with
  | nil =>
    cases h : lookupA m p <;> simp [pickLatest, mergeAcc, mergeOpt, h]
  | cons s rest ih =>
    rw [List.foldl_cons, ih (dedupStep active m s)]
    by_cases hlive : active.contains s.pane_id = true
    · by_cases hp : s.pane_id = p
      · subst hp
        rw [pickLatest, if_pos ⟨rfl, hlive⟩]
        rw [dedupStep, if_pos hlive]
        cases hm : lookupA m s.pane_id with
        | none =>
          simp only [dedupUpdate]
          rw [lookupA_insertA, if_pos rfl]
          simp [mergeAcc]
        | some e =>
          simp only [dedupUpdate]
          by_cases hup : s.updated > e.updated
          · rw [if_pos hup, lookupA_insertA, if_pos rfl]
            simp only [mergeAcc, Option.some.injEq]
            exact (mergeOpt_absorb_lt e s _ hup).symm
          · rw [if_neg hup, hm]
            simp only [mergeAcc, Option.some.injEq]
            exact (mergeOpt_absorb_le e s _ (le_of_not_lt hup)).symm
      · have hpick : pickLatest active p (s :: rest) = pickLatest active p rest :=
          pickLatest_cons_neg active p s rest (fun hc => hp hc.1)
        rw [hpick]
        rw [dedupStep, if_pos hlive]
        cases hm : lookupA m s.pane_id with
        | none =>
          simp only [dedupUpdate]
          rw [lookupA_insertA, if_neg hp]
        | some e =>
          simp only [dedupUpdate]
          by_cases hup : s.updated > e.updated
          · rw [if_pos hup, lookupA_insertA, if_neg hp]
          · rw [if_neg hup]
    · have hpick : pickLatest active p (s :: rest) = pickLatest active p rest := by
        refine pickLatest_cons_neg active p s rest (fun hc => hlive ?_)
        rw [hc.1]; exact hc.2
      rw [hpick, dedupStep, if_neg hlive]

theorem dedupFold_lookup (active : List String) (p : String) (ss : List Session) :
    lookupA (dedupFold active ss) p = pickLatest active p ss := by
  rw [dedupFold, lookupA_foldl_dedupStep]
  rfl

theorem dedupStep_keys_nodup (active : List String) (m : List (String × Session))
    (s : Session) (h : (m.map Prod.fst).Nodup) :
    ((dedupStep active m s).map Prod.fst).Nodup := by
  rw [dedupStep]
  by_cases hlive : active.contains s.pane_id = true
  · rw [if_pos hlive]
    cases hm : lookupA m s.pane_id with
    | none =>
      simp only [dedupUpdate]
      exact keys_nodup_insertA m _ s h
    | some e =>
      simp only [dedupUpdate]
      by_cases hup : s.updated > e.updated
      · rw [if_pos hup]; exact keys_nodup_insertA m _ s h
      · rw [if_neg hup]; exact h
  · rw [if_neg hlive]; exact h

theorem dedupFold_keys_nodup (active : List String) (ss : List Session) :
    ((dedupFold active ss).map Prod.fst).Nodup := by
  rw [dedupFold]
  have hstep : ∀ m : List (String × Session), (m.map Prod.fst).Nodup →
      ((ss.foldl (dedupStep active) m).map Prod.fst).Nodup := by
    induction ss with
    | nil => intro m h; exact h
    | cons s rest ih =>
      intro m h
      exact ih _ (dedupStep_keys_nodup active m s h)
  exact hstep [] (by simp)

theorem dedupStep_pane_inv (active : List String) (m : List (String × Session))
    (s : Session) (h : ∀ kv ∈ m, (kv : String × Session).2.pane_id = kv.1) :
    ∀ kv ∈ dedupStep active m s, (kv : String × Session).2.pane_id = kv.1 := by
  intro kv hkv
  rw [dedupStep] at hkv
  have hins : kv ∈ insertA m s.pane_id s → kv.2.pane_id = kv.1 := by
    intro hin
    rcases mem_insertA m s.pane_id s kv hin with hin | hin
    · exact h kv hin
    · rw [hin]
  by_cases hlive : active.contains s.pane_id = true
  · rw [if_pos hlive] at hkv
    cases hm : lookupA m s.pane_id with
    | none =>
      rw [hm] at hkv
      simp only [dedupUpdate] at hkv
      exact hins hkv
    | some e =>
      rw [hm] at hkv
      simp only [dedupUpdate] at hkv
      by_cases hup : s.updated > e.updated
      · rw [if_pos hup] at hkv; exact hins hkv
      · rw [if_neg hup] at hkv; exact h kv hkv
  · rw [if_neg hlive] at hkv; exact h kv hkv

theorem dedupFold_pane_inv (active : List String) (ss : List Session) :
    ∀ kv ∈ dedupFold active ss, (kv : String × Session).2.pane_id = kv.1 := by
  rw [dedupFold]
  have hstep : ∀ m : List (String × Session),
      (∀ kv ∈ m, (kv : String × Session).2.pane_id = kv.1) →
      ∀ kv ∈ ss.foldl (dedupStep active) m, (kv : String × Session).2.pane_id = kv.1 := by
    induction ss with
    | nil => intro m h; exact h
    | cons s rest ih =>
      intro m h
      exact ih _ (dedupStep_pane_inv active m s h)
  exact hstep [] (by simp)

/-! ### Lemmas about the stable sort -/

theorem insertDesc_perm (s : Session) (l : List Session) :
    (insertDesc s l).Perm (s :: l) := by
  induction l with
  | nil => exact List.Perm.refl _
  | cons t rest ih =>
    rw [insertDesc]
    by_cases h : s.updated ≥ t.updated
    · rw [if_pos h]
    · rw [if_neg h]
      exact (List.Perm.cons t ih).trans (List.Perm.swap s t rest)

theorem sortDesc_perm (l : List Session) : (sortDesc l).Perm l := by
  induction l with
  | nil => exact List.Perm.refl _
  | cons s rest ih =>
    have hfold : sortDesc (s :: rest) = insertDesc s (sortDesc rest) := rfl
    rw [hfold]
    exact (insertDesc_perm s (sortDesc rest)).trans (List.Perm.cons s ih)

theorem filter_mem_lookup (order : List (String × Session) → List Session)
    (active : List String) (sessions : List Session)
    (hOrd : (order (dedupFold active sessions)).Perm
      ((dedupFold active sessions).map Prod.snd))
    (s : Session) (hs : s ∈ filter_active_sessions_ord order active sessions) :
    lookupA (dedupFold active sessions) s.pane_id = some s := by
  have h1 : s ∈ order (dedupFold active sessions) :=
    ((sortDesc_perm (order (dedupFold active sessions))).mem_iff).mp hs
  have h2 : s ∈ (dedupFold active sessions).map Prod.snd := hOrd.mem_iff.mp h1
  obtain ⟨kv, hkv, hsnd⟩ := List.mem_map.mp h2
  have hpane := dedupFold_pane_inv active sessions kv hkv
  have hlk : lookupA (dedupFold active sessions) kv.1 = some kv.2 :=
    lookupA_of_mem _ kv.1 kv.2 (dedupFold_keys_nodup active sessions) (by
      rw [Prod.mk.eta]; exact hkv)
  rw [hsnd] at hpane
  rw [← hpane] at hlk
  rw [hlk, hsnd]

/-- **C1.** For every input list of session records and every set of live
pane ids (and any iteration order of the dedup map's values), the output
of `filter_active_sessions` contains no record whose `pane_id` is outside
the live set, contains at most one record per distinct `pane_id`, and
every surviving record attains the maximum `updated` among its pane's
candidates, with the earliest record in input order winning
exact-timestamp ties (the fold compares with strict greater-than). -/
theorem C1_filter_active_sessions_correct
    (order : List (String × Session) → List Session)
    (active : List String) (sessions : List Session)
    (hOrd : (order (dedupFold active sessions)).Perm
      ((dedupFold active sessions).map Prod.snd)) :
    (∀ s ∈ filter_active_sessions_ord order active sessions,
        active.contains s.pane_id = true) ∧
    ((filter_active_sessions_ord order active sessions).map Session.pane_id).Nodup ∧
    (∀ s ∈ filter_active_sessions_ord order active sessions,
      (∀ t ∈ sessions, t.pane_id = s.pane_id → t.updated ≤ s.updated) ∧
      ∃ pre post, sessions = pre ++ s :: post ∧
        ∀ t ∈ pre, t.pane_id = s.pane_id → t.updated < s.updated) := by
  refine ⟨?_, ?_, ?_⟩
  · intro s hs
    have hlk := filter_mem_lookup order active sessions hOrd s hs
    rw [dedupFold_lookup] at hlk
    exact (pickLatest_mem _ _ _ _ hlk).2.2
  · have p1 : (filter_active_sessions_ord order active sessions).Perm
        (order (dedupFold active sessions)) := sortDesc_perm _
    have p2 := p1.trans hOrd
    have hmapeq : ((dedupFold active sessions).map Prod.snd).map Session.pane_id
        = (dedupFold active sessions).map Prod.fst := by
      rw [List.map_map]
      exact List.map_congr_left
        (fun kv hkv => dedupFold_pane_inv active sessions kv hkv)
    have p3 := p2.map Session.pane_id
    rw [hmapeq] at p3
    exact (p3.nodup_iff).mpr (dedupFold_keys_nodup active sessions)
  · intro s hs
    have hlk := filter_mem_lookup order active sessions hOrd s hs
    rw [dedupFold_lookup] at hlk
    exact ⟨pickLatest_max _ _ _ _ hlk, pickLatest_earliest _ _ _ _ hlk⟩

/-- A concrete session record for witnesses. -/
def mkSession (sid pid : String) (upd : Nat) : Session :=
  { session_id := sid, pane_id := pid, cwd := "/home/aya/proj",
    status := "active", notification_message := none,
    notification_type := none, updated := upd, summary := none,
    first_prompt := none, message_count := none, git_branch := none,
    modified := none }

/-- Witness for C1: the dedup scenario of the spec (two records on live
pane 7 with `updated` 100 and 200). -/
theorem C1_filter_active_sessions_correct_witness :
    (∀ s ∈ filter_active_sessions_ord (fun m => m.map Prod.snd) ["7"]
        [mkSession "a" "7" 100, mkSession "b" "7" 200],
        ["7"].contains s.pane_id = true) ∧
    ((filter_active_sessions_ord (fun m => m.map Prod.snd) ["7"]
        [mkSession "a" "7" 100, mkSession "b" "7" 200]).map Session.pane_id).Nodup ∧
    (∀ s ∈ filter_active_sessions_ord (fun m => m.map Prod.snd) ["7"]
        [mkSession "a" "7" 100, mkSession "b" "7" 200],
      (∀ t ∈ [mkSession "a" "7" 100, mkSession "b" "7" 200],
          t.pane_id = s.pane_id → t.updated ≤ s.updated) ∧
      ∃ pre post, [mkSession "a" "7" 100, mkSession "b" "7" 200] = pre ++ s :: post ∧
        ∀ t ∈ pre, t.pane_id = s.pane_id → t.updated < s.updated) :=
  C1_filter_active_sessions_correct (fun m => m.map Prod.snd) ["7"]
    [mkSession "a" "7" 100, mkSession "b" "7" 200] (by decide)

/-- **C3 counterexample.** The claim fails as stated: with two surviving
records of equal `updated` on distinct live panes, two admissible
iteration orders of `HashMap::into_values` (both permutations of the
dedup map's values, as Rust's randomized `HashMap` may produce on two
runs) give element-for-element different outputs. -/
theorem C3_counterexample :
    ((fun (m : List (String × Session)) => m.map Prod.snd)
        (dedupFold ["1", "2"] [mkSession "a" "1" 5, mkSession "b" "2" 5])).Perm
      ((dedupFold ["1", "2"] [mkSession "a" "1" 5, mkSession "b" "2" 5]).map
        Prod.snd) ∧
    ((fun (m : List (String × Session)) => (m.map Prod.snd).reverse)
        (dedupFold ["1", "2"] [mkSession "a" "1" 5, mkSession "b" "2" 5])).Perm
      ((dedupFold ["1", "2"] [mkSession "a" "1" 5, mkSession "b" "2" 5]).map
        Prod.snd) ∧
    filter_active_sessions_ord (fun m => m.map Prod.snd) ["1", "2"]
        [mkSession "a" "1" 5, mkSession "b" "2" 5] ≠
      filter_active_sessions_ord (fun m => (m.map Prod.snd).reverse) ["1", "2"]
        [mkSession "a" "1" 5, mkSession "b" "2" 5] := by
  decide

/-- **C3 (amended).** Re-running `filter_active_sessions` on identical
input yields outputs that are equal as multisets (permutations of each
other) for any two admissible iteration orders of the dedup map; outputs
are identical element for element only when the iteration order is the
same — with equal `updatedAt` ties they may differ in order between runs. -/
theorem C3_filter_deterministic_up_to_perm
    (o1 o2 : List (String × Session) → List Session)
    (active : List String) (sessions : List Session)
    (h1 : (o1 (dedupFold active sessions)).Perm
      ((dedupFold active sessions).map Prod.snd))
    (h2 : (o2 (dedupFold active sessions)).Perm
      ((dedupFold active sessions).map Prod.snd)) :
    (filter_active_sessions_ord o1 active sessions).Perm
      (filter_active_sessions_ord o2 active sessions) :=
  (sortDesc_perm _).trans
    ((h1.trans h2.symm).trans (sortDesc_perm _).symm)

/-- Witness for C3 (amended) at the tied-timestamp input. -/
theorem C3_filter_deterministic_up_to_perm_witness :
    (filter_active_sessions_ord (fun m => m.map Prod.snd) ["1", "2"]
        [mkSession "a" "1" 5, mkSession "b" "2" 5]).Perm
      (filter_active_sessions_ord (fun m => (m.map Prod.snd).reverse) ["1", "2"]
        [mkSession "a" "1" 5, mkSession "b" "2" 5]) :=
  C3_filter_deterministic_up_to_perm (fun m => m.map Prod.snd)
    (fun m => (m.map Prod.snd).reverse) ["1", "2"]
    [mkSession "a" "1" 5, mkSession "b" "2" 5] (by decide) (by decide)

/-- **C2.** `update_sessions` with a replacement list of length `m`:
a previously selected index `i` stays selected when `i < m`; when
`0 < m ≤ i` the selection is clamped to `m - 1`; when `m = 0` the
selection becomes none; and when nothing was selected and `m > 0`,
index 0 becomes selected. -/
theorem C2_update_sessions_selection (a : App) (ss : List Session) :
    (ss.length = 0 → (a.update_sessions ss).selected = none) ∧
    (∀ i, a.selected = some i → i < ss.length →
      (a.update_sessions ss).selected = some i) ∧
    (∀ i, a.selected = some i → 0 < ss.length → ss.length ≤ i →
      (a.update_sessions ss).selected = some (ss.length - 1)) ∧
    (a.selected = none → 0 < ss.length →
      (a.update_sessions ss).selected = some 0) := by
  refine ⟨?_, ?_, ?_, ?_⟩
  · intro hlen
    rw [App.update_sessions, if_pos (List.isEmpty_iff_length_eq_zero.mpr hlen)]
  · intro i hsel hi
    have hne : ¬ ss.isEmpty = true := by
      rw [List.isEmpty_iff_length_eq_zero]; omega
    rw [App.update_sessions, if_neg hne, hsel]
    simp only [keepSelection]
    rw [if_neg (by omega)]
  · intro i hsel hpos hle
    have hne : ¬ ss.isEmpty = true := by
      rw [List.isEmpty_iff_length_eq_zero]; omega
    rw [App.update_sessions, if_neg hne, hsel]
    simp only [keepSelection]
    rw [if_pos (by omega)]
  · intro hsel hpos
    have hne : ¬ ss.isEmpty = true := by
      rw [List.isEmpty_iff_length_eq_zero]; omega
    rw [App.update_sessions, if_neg hne, hsel]
    rfl

/-- Witness for C2: all four selection-preservation cases at concrete
states. -/
theorem C2_update_sessions_selection_witness :
    ((App.mk [mkSession "a" "1" 1] (some 0)).update_sessions []).selected = none ∧
    ((App.mk [mkSession "a" "1" 1, mkSession "b" "2" 2] (some 1)).update_sessions
      [mkSession "c" "3" 3, mkSession "d" "4" 4]).selected = some 1 ∧
    ((App.mk [mkSession "a" "1" 1, mkSession "b" "2" 2] (some 1)).update_sessions
      [mkSession "c" "3" 3]).selected = some 0 ∧
    ((App.mk [] none).update_sessions [mkSession "c" "3" 3]).selected = some 0 :=
  ⟨(C2_update_sessions_selection _ _).1 rfl,
   (C2_update_sessions_selection _ _).2.1 1 rfl (by decide),
   (C2_update_sessions_selection _ _).2.2.1 1 rfl (by decide) (by decide),
   (C2_update_sessions_selection _ _).2.2.2 rfl (by decide)⟩

/-- **C5 counterexample.** The derivation maps the two distinct `cwd`s
`"/a.b"` and `"/a/b"` to the same project directory name, so it is not
collision-free. -/
theorem C5_counterexample :
    cwd_to_project_path "/a.b" = cwd_to_project_path "/a/b" ∧
    "/a.b" ≠ "/a/b" := by
  decide

/-- **C5 (amended).** The project-index location is derived from a
session's `cwd` by replacing every `'/'` and every `'.'` character with
`'-'` (so `"/home/aya/.dotfiles"` becomes `"-home-aya--dotfiles"`), but
the derivation is lossy: two different `cwd` strings can map onto the
same derived directory name. -/
theorem C5_cwd_to_project_path_spec :
    (∀ cwd : String, (cwd_to_project_path cwd).data
        = cwd.data.map (fun c => if c = '/' ∨ c = '.' then '-' else c)) ∧
    cwd_to_project_path "/home/aya/.dotfiles" = "-home-aya--dotfiles" ∧
    ∃ c1 c2 : String, c1 ≠ c2 ∧ cwd_to_project_path c1 = cwd_to_project_path c2 := by
  refine ⟨?_, by decide, "/a.b", "/a/b", by decide, by decide⟩
  intro cwd
  simp only [cwd_to_project_path, replaceChar, List.map_map]
  refine List.map_congr_left (fun c _ => ?_)
  by_cases h1 : c = '/'
  · subst h1; decide
  · by_cases h2 : c = '.'
    · subst h2; decide
    · simp [Function.comp, h1, h2]

theorem loadStep_foldl_error (parse : String → Except String Session)
    (entries : List FileEntry) (err : LoadError) :
    entries.foldl (loadStep parse) (Except.error err) = Except.error err := by
  induction entries with
  | nil => rfl
  | cons e rest ih => rw [List.foldl_cons]; exact ih

theorem loadFold_fails_of_bad (parse : String → Except String Session)
    (entries : List FileEntry) :
    ∀ b ∈ entries, b.ext = some "json" → (parse b.content).isOk = false →
    ∃ bad ∈ entries, bad.ext = some "json" ∧ (parse bad.content).isOk = false ∧
      ∃ msg, ∀ l : List Session,
        entries.foldl (loadStep parse) (Except.ok l)
          = Except.error (LoadError.parseError bad.name msg) := by
  induction entries with
  | nil => intro b hb; simp at hb
  | cons e rest ih =>
    intro b hb hext hbad
    by_cases hje : e.ext = some "json"
    · cases hp : parse e.content with
      | error msg =>
        refine ⟨e, List.mem_cons_self _ _, hje, by rw [hp]; rfl, msg, ?_⟩
        intro l
        rw [List.foldl_cons,
          show loadStep parse (Except.ok l) e
              = Except.error (LoadError.parseError e.name msg) by
            rw [show loadStep parse (Except.ok l) e
                = if e.ext = some "json" then parsedEntry e.name l (parse e.content)
                  else Except.ok l from rfl, if_pos hje, hp]
            rfl]
        exact loadStep_foldl_error parse rest _
      | ok s =>
        have hbr : b ∈ rest := by
          rcases List.mem_cons.mp hb with hb | hb
          · exfalso; rw [hb, hp] at hbad; simp [Except.isOk, Except.toBool] at hbad
          · exact hb
        obtain ⟨bad, hbm, hbx, hbp, msg, hmsg⟩ := ih b hbr hext hbad
        refine ⟨bad, List.mem_cons_of_mem _ hbm, hbx, hbp, msg, ?_⟩
        intro l
        rw [List.foldl_cons,
          show loadStep parse (Except.ok l) e = Except.ok (l ++ [s]) by
            rw [show loadStep parse (Except.ok l) e
                = if e.ext = some "json" then parsedEntry e.name l (parse e.content)
                  else Except.ok l from rfl, if_pos hje, hp]
            rfl]
        exact hmsg (l ++ [s])
    · have hbr : b ∈ rest := by
        rcases List.mem_cons.mp hb with hb | hb
        · exfalso; rw [hb] at hext; exact hje hext
        · exact hb
      obtain ⟨bad, hbm, hbx, hbp, msg, hmsg⟩ := ih b hbr hext hbad
      refine ⟨bad, List.mem_cons_of_mem _ hbm, hbx, hbp, msg, ?_⟩
      intro l
      rw [List.foldl_cons,
        show loadStep parse (Except.ok l) e = Except.ok l by
          rw [show loadStep parse (Except.ok l) e
              = if e.ext = some "json" then parsedEntry e.name l (parse e.content)
                else Except.ok l from rfl, if_neg hje]]
      exact hmsg l

/-- **C6.** If the sessions storage directory does not exist,
`load_sessions` returns the empty list with no error; if any `.json`
document in the directory is malformed, the entire load fails with a
parse error identifying the offending document — it does not skip the bad
document and return the rest. -/
theorem C6_load_sessions_policy (parse : String → Except String Session)
    (entries : List FileEntry) (b : FileEntry) (hb : b ∈ entries)
    (hext : b.ext = some "json") (hbad : (parse b.content).isOk = false) :
    load_sessions parse none = Except.ok [] ∧
    ∃ bad ∈ entries, bad.ext = some "json" ∧ (parse bad.content).isOk = false ∧
      ∃ msg, load_sessions parse (some entries)
        = Except.error (LoadError.parseError bad.name msg) := by
  refine ⟨rfl, ?_⟩
  obtain ⟨bad, hbm, hbx, hbp, msg, hmsg⟩ :=
    loadFold_fails_of_bad parse entries b hb hext hbad
  exact ⟨bad, hbm, hbx, hbp, msg, hmsg []⟩

/-- Witness for C6: one well-formed and one malformed document. -/
theorem C6_load_sessions_policy_witness :
    load_sessions
      (fun c => if c = "good" then Except.ok (mkSession "a" "1" 1)
                else Except.error "invalid JSON") none = Except.ok [] ∧
    ∃ bad ∈ [FileEntry.mk "ok.json" (some "json") "good",
             FileEntry.mk "broken.json" (some "json") "oops"],
      bad.ext = some "json" ∧
      ((fun c => if c = "good" then Except.ok (mkSession "a" "1" 1)
                 else Except.error "invalid JSON") bad.content).isOk = false ∧
      ∃ msg, load_sessions
          (fun c => if c = "good" then Except.ok (mkSession "a" "1" 1)
                    else Except.error "invalid JSON")
          (some [FileEntry.mk "ok.json" (some "json") "good",
                 FileEntry.mk "broken.json" (some "json") "oops"])
        = Except.error (LoadError.parseError bad.name msg) :=
  C6_load_sessions_policy
    (fun c => if c = "good" then Except.ok (mkSession "a" "1" 1)
              else Except.error "invalid JSON")
    [FileEntry.mk "ok.json" (some "json") "good",
     FileEntry.mk "broken.json" (some "json") "oops"]
    (FileEntry.mk "broken.json" (some "json") "oops")
    (by decide) rfl rfl

/-! ### Lemmas about enrichment -/

theorem zip_map_snd {α β : Type} (f : α → β) (l : List α) :
    ∀ p ∈ l.zip (l.map f), (p : α × β).2 = f p.1 := by
  induction l with
  | nil => intro p hp; simp at hp
  | cons x rest ih =>
    intro p hp
    rw [List.map_cons, List.zip_cons_cons] at hp
    rcases List.mem_cons.mp hp with hp | hp
    · rw [hp]
    · exact ih p hp

theorem exists_cwd_cons_ne (s : Session) (rest : List Session) (c : String)
    (h : ¬ s.cwd = c) :
    (∃ t ∈ s :: rest, (t : Session).cwd = c) ↔ ∃ t ∈ rest, (t : Session).cwd = c := by
  constructor
  · rintro ⟨t, ht, htc⟩
    rcases List.mem_cons.mp ht with ht | ht
    · exact absurd (ht ▸ htc) h
    · exact ⟨t, ht, htc⟩
  · rintro ⟨t, ht, htc⟩
    exact ⟨t, List.mem_cons_of_mem _ ht, htc⟩

theorem lookupA_buildCwdFold
    (f : String → Except String (List (String × SessionIndexEntry)))
    (c : String) (ss : List Session) :
    ∀ m, lookupA (ss.foldl (buildStep f) m) c =
      (lookupA m c).or
        (if ∃ s ∈ ss, (s : Session).cwd = c
         then some (unwrapOrDefault (f c)) else none) := by
  induction ss with
  | nil =>
    intro m
    cases h : lookupA m c <;> simp [h]
  | cons s rest ih =>
    intro m
    rw [List.foldl_cons, ih (buildStep f m s)]
    by_cases hs : (lookupA m s.cwd).isSome = true
    · rw [buildStep, if_pos hs]
      by_cases hcw : s.cwd = c
      · obtain ⟨v, hv⟩ := Option.isSome_iff_exists.mp (hcw ▸ hs)
        rw [hv, Option.or_some, Option.or_some]
      · rw [if_congr (exists_cwd_cons_ne s rest c hcw) rfl rfl]
    · cases hms : lookupA m s.cwd with
      | some v => exact absurd (by rw [hms]; rfl) hs
      | none =>
        rw [buildStep, if_neg hs, lookupA_insertA]
        by_cases hcw : s.cwd = c
        · rw [if_pos hcw]
          have hmc : lookupA m c = none := by rw [← hcw]; exact hms
          rw [hmc, Option.or_some,
            if_pos (⟨s, List.mem_cons_self _ _, hcw⟩ :
              ∃ t ∈ s :: rest, (t : Session).cwd = c), hcw]
          rfl
        · rw [if_neg hcw, if_congr (exists_cwd_cons_ne s rest c hcw) rfl rfl]

theorem lookupA_buildCwdIndex
    (f : String → Except String (List (String × SessionIndexEntry)))
    (ss : List Session) (c : String) :
    lookupA (buildCwdIndex f ss) c =
      if ∃ s ∈ ss, (s : Session).cwd = c
      then some (unwrapOrDefault (f c)) else none := by
  rw [buildCwdIndex, lookupA_buildCwdFold]
  rfl

theorem buildCwdIndex_congr
    (f g : String → Except String (List (String × SessionIndexEntry)))
    (hfg : ∀ c, unwrapOrDefault (f c) = unwrapOrDefault (g c))
    (ss : List Session) : buildCwdIndex f ss = buildCwdIndex g ss := by
  rw [buildCwdIndex, buildCwdIndex]
  have hfold : ∀ m, ss.foldl (buildStep f) m = ss.foldl (buildStep g) m := by
    induction ss with
    | nil => intro m; rfl
    | cons s rest ih =>
      intro m
      rw [List.foldl_cons, List.foldl_cons,
        show buildStep f m s = buildStep g m s by
          rw [buildStep, buildStep, hfg s.cwd], ih]
  exact hfold []

/-- **C4.** A failure loading or parsing the project index for one `cwd`
never fails `enrich_sessions_with_index`: the call still succeeds, the
result is the same as if that `cwd` simply had an empty index (so the
other `cwd`s' sessions are enriched normally from their own indexes), and
every session of the failing `cwd` is returned unchanged — in the
pipeline its enrichment fields are unset and stay unset. -/
theorem C4_enrich_isolates_index_failure
    (loadIndex : String → Except String (List (String × SessionIndexEntry)))
    (sessions : List Session) (badCwd emsg : String)
    (hbad : loadIndex badCwd = Except.error emsg) :
    (enrich_sessions_with_index loadIndex sessions).isOk = true ∧
    enrich_sessions_with_index loadIndex sessions =
      enrich_sessions_with_index
        (fun c => if c = badCwd then Except.ok [] else loadIndex c) sessions ∧
    ∀ out, enrich_sessions_with_index loadIndex sessions = Except.ok out →
      ∀ p ∈ sessions.zip out, (p : Session × Session).1.cwd = badCwd →
        p.2 = p.1 ∧
        (p.1.summary = none → p.2.summary = none) ∧
        (p.1.first_prompt = none → p.2.first_prompt = none) ∧
        (p.1.message_count = none → p.2.message_count = none) ∧
        (p.1.git_branch = none → p.2.git_branch = none) ∧
        (p.1.modified = none → p.2.modified = none) := by
  refine ⟨rfl, ?_, ?_⟩
  · rw [enrich_sessions_with_index, enrich_sessions_with_index,
      buildCwdIndex_congr loadIndex
        (fun c => if c = badCwd then Except.ok [] else loadIndex c)
        (fun c => ?_) sessions]
    show unwrapOrDefault (loadIndex c)
      = unwrapOrDefault (if c = badCwd then Except.ok [] else loadIndex c)
    by_cases hc : c = badCwd
    · rw [if_pos hc, hc, hbad]; rfl
    · rw [if_neg hc]
  · intro out hout p hp hcwd
    have hout2 : out = sessions.map (enrichOne (buildCwdIndex loadIndex sessions)) :=
      (Except.ok.inj (hout :
        Except.ok (sessions.map (enrichOne (buildCwdIndex loadIndex sessions)))
          = Except.ok out)).symm
    subst hout2
    have hp2 := zip_map_snd (enrichOne (buildCwdIndex loadIndex sessions)) sessions p hp
    have heq : p.2 = p.1 := by
      rw [hp2, enrichOne, entryLookup]
      have hidx := lookupA_buildCwdIndex loadIndex sessions p.1.cwd
      rw [hcwd, hbad] at hidx
      by_cases hex : ∃ s ∈ sessions, (s : Session).cwd = badCwd
      · rw [if_pos hex] at hidx
        rw [hcwd, hidx]
        rfl
      · rw [if_neg hex] at hidx
        rw [hcwd, hidx]
        rfl
    exact ⟨heq, fun h => by rw [heq]; exact h, fun h => by rw [heq]; exact h,
      fun h => by rw [heq]; exact h, fun h => by rw [heq]; exact h,
      fun h => by rw [heq]; exact h⟩

/-- A concrete index entry whose optional fields are all unset. -/
def c7entry : SessionIndexEntry :=
  { session_id := "a", summary := none, first_prompt := none,
    message_count := none, git_branch := none, modified := none,
    project_path := none }

/-- A session whose `summary` enrichment field is already set before
enrichment. -/
def c7pre : Session := { mkSession "a" "1" 1 with summary := some "x" }

/-- What enrichment makes of `c7pre` when the index holds `c7entry`:
the pre-set `summary` is cleared. -/
def c7post : Session := { c7pre with summary := none }

/-- A concrete enrichment entry with every optional field set. -/
def c4good : SessionIndexEntry :=
  { session_id := "g", summary := some "sum", first_prompt := some "fp",
    message_count := some 3, git_branch := some "main",
    modified := some "2026-01-01T00:00:00Z", project_path := none }

/-- Witness for C4: the index for `"/bad"` fails to load while the index
for `"/home/aya/proj"` loads; the `"/bad"` session passes through
unchanged and the call succeeds. -/
theorem C4_enrich_isolates_index_failure_witness :
    (enrich_sessions_with_index
      (fun c => if c = "/home/aya/proj" then Except.ok [("g", c4good)]
                else Except.error "broken index")
      [mkSession "g" "1" 1, { mkSession "x" "2" 2 with cwd := "/bad" }]).isOk
        = true ∧
    enrich_sessions_with_index
      (fun c => if c = "/home/aya/proj" then Except.ok [("g", c4good)]
                else Except.error "broken index")
      [mkSession "g" "1" 1, { mkSession "x" "2" 2 with cwd := "/bad" }] =
      enrich_sessions_with_index
        (fun c => if c = "/bad" then Except.ok []
                  else if c = "/home/aya/proj" then Except.ok [("g", c4good)]
                  else Except.error "broken index")
        [mkSession "g" "1" 1, { mkSession "x" "2" 2 with cwd := "/bad" }] ∧
    ∀ out, enrich_sessions_with_index
        (fun c => if c = "/home/aya/proj" then Except.ok [("g", c4good)]
                  else Except.error "broken index")
        [mkSession "g" "1" 1, { mkSession "x" "2" 2 with cwd := "/bad" }]
          = Except.ok out →
      ∀ p ∈ [mkSession "g" "1" 1,
             { mkSession "x" "2" 2 with cwd := "/bad" }].zip out,
        (p : Session × Session).1.cwd = "/bad" →
          p.2 = p.1 ∧
          (p.1.summary = none → p.2.summary = none) ∧
          (p.1.first_prompt = none → p.2.first_prompt = none) ∧
          (p.1.message_count = none → p.2.message_count = none) ∧
          (p.1.git_branch = none → p.2.git_branch = none) ∧
          (p.1.modified = none → p.2.modified = none) :=
  C4_enrich_isolates_index_failure
    (fun c => if c = "/home/aya/proj" then Except.ok [("g", c4good)]
              else Except.error "broken index")
    [mkSession "g" "1" 1, { mkSession "x" "2" 2 with cwd := "/bad" }]
    "/bad" "broken index" rfl

/-- **C7 counterexample.** Enrichment is not additive-only on arbitrary
inputs: a session whose `summary` is already set is overwritten (here
cleared to `none`) when a matching index entry exists, because the source
assigns all five enrichment fields from the entry unconditionally. -/
theorem C7_counterexample :
    c7pre.summary = some "x" ∧
    enrich_sessions_with_index (fun _ => Except.ok [("a", c7entry)]) [c7pre]
      = Except.ok [{ c7pre with summary := none }] :=
  ⟨rfl, rfl⟩

/-- **C7 (amended).** `enrich_sessions_with_index` leaves every
non-enrichment field of every session unchanged, and leaves a session
entirely unchanged when no matching index entry exists; when a matching
entry exists, all five enrichment fields are overwritten with the entry's
values — so enrichment is additive-only exactly for inputs whose
enrichment fields are unset, as produced by the session loader. -/
theorem C7_enrich_frame
    (loadIndex : String → Except String (List (String × SessionIndexEntry)))
    (sessions : List Session) :
    ∀ out, enrich_sessions_with_index loadIndex sessions = Except.ok out →
    ∀ p ∈ sessions.zip out,
      ((p : Session × Session).2.session_id = p.1.session_id ∧
       p.2.pane_id = p.1.pane_id ∧ p.2.cwd = p.1.cwd ∧
       p.2.status = p.1.status ∧ p.2.updated = p.1.updated ∧
       p.2.notification_message = p.1.notification_message ∧
       p.2.notification_type = p.1.notification_type) ∧
      (entryFor loadIndex sessions p.1 = none → p.2 = p.1) ∧
      (∀ e, entryFor loadIndex sessions p.1 = some e →
        p.2.summary = e.summary ∧ p.2.first_prompt = e.first_prompt ∧
        p.2.message_count = e.message_count ∧
        p.2.git_branch = e.git_branch ∧ p.2.modified = e.modified) := by
  intro out hout p hp
  have hout2 : out = sessions.map (enrichOne (buildCwdIndex loadIndex sessions)) :=
    (Except.ok.inj (hout :
      Except.ok (sessions.map (enrichOne (buildCwdIndex loadIndex sessions)))
        = Except.ok out)).symm
  subst hout2
  have hp2 := zip_map_snd (enrichOne (buildCwdIndex loadIndex sessions)) sessions p hp
  rw [hp2, enrichOne, entryFor]
  cases he0 : entryLookup (buildCwdIndex loadIndex sessions) p.1 with
  | none =>
    exact ⟨⟨rfl, rfl, rfl, rfl, rfl, rfl, rfl⟩, fun _ => rfl,
      fun e he => Option.noConfusion he⟩
  | some e0 =>
    refine ⟨⟨rfl, rfl, rfl, rfl, rfl, rfl, rfl⟩,
      fun habs => Option.noConfusion habs, fun e he => ?_⟩
    cases Option.some.inj he
    exact ⟨rfl, rfl, rfl, rfl, rfl⟩

/-- Witness for C7 (amended), at the overwriting pair of the
counterexample's scenario. -/
theorem C7_enrich_frame_witness :
    (c7post.session_id = c7pre.session_id ∧ c7post.pane_id = c7pre.pane_id ∧
     c7post.cwd = c7pre.cwd ∧ c7post.status = c7pre.status ∧
     c7post.updated = c7pre.updated ∧
     c7post.notification_message = c7pre.notification_message ∧
     c7post.notification_type = c7pre.notification_type) ∧
    (entryFor (fun _ => Except.ok [("a", c7entry)]) [c7pre] c7pre = none →
      c7post = c7pre) ∧
    (∀ e, entryFor (fun _ => Except.ok [("a", c7entry)]) [c7pre] c7pre = some e →
      c7post.summary = e.summary ∧ c7post.first_prompt = e.first_prompt ∧
      c7post.message_count = e.message_count ∧
      c7post.git_branch = e.git_branch ∧ c7post.modified = e.modified) :=
  C7_enrich_frame (fun _ => Except.ok [("a", c7entry)]) [c7pre]
    [c7post] rfl (c7pre, c7post) (by decide)

/-! ### The render/input loop and the dashboard state machine -/

theorem App_next_sessions (a : App) : a.next.sessions = a.sessions := by
  rw [App.next]
  by_cases h : a.sessions.isEmpty = true
  · rw [if_pos h]
  · rw [if_neg h]

theorem App_previous_sessions (a : App) : a.previous.sessions = a.sessions := by
  rw [App.previous]
  by_cases h : a.sessions.isEmpty = true
  · rw [if_pos h]
  · rw [if_neg h]

/-- **C8 (divergence evaluation).** The `run_tui` loop never changes the
session list, whatever events occur — in particular, after any number of
elapsed poll-timeout intervals with no input the state is entirely
unchanged and no aggregation re-run has been fed into `update_sessions`:
the source's periodic-refresh block is commented out
(`src/ui.rs:371-375`, `TODO: Phase 2`), so the claimed refresh never
happens. -/
theorem C8_no_periodic_refresh (a : App) (evs : List TuiEvent) :
    (run_tui_loop a evs).1.sessions = a.sessions ∧
    ∀ n : Nat, run_tui_loop a (List.replicate n TuiEvent.timeout) = (a, none) := by
  constructor
  · induction evs generalizing a with
    | nil => rfl
    | cons ev rest ih =>
      cases ev with
      | timeout => exact ih a
      | keyQ => rfl
      | keyDown => rw [show run_tui_loop a (TuiEvent.keyDown :: rest)
            = run_tui_loop a.next rest from rfl, ih a.next, App_next_sessions]
      | keyJ => rw [show run_tui_loop a (TuiEvent.keyJ :: rest)
            = run_tui_loop a.next rest from rfl, ih a.next, App_next_sessions]
      | keyUp => rw [show run_tui_loop a (TuiEvent.keyUp :: rest)
            = run_tui_loop a.previous rest from rfl, ih a.previous,
              App_previous_sessions]
      | keyK => rw [show run_tui_loop a (TuiEvent.keyK :: rest)
            = run_tui_loop a.previous rest from rfl, ih a.previous,
              App_previous_sessions]
      | keyOther => exact ih a
      | keyEnter =>
        cases hsel : a.selected_session with
        | some s =>
          rw [show run_tui_loop a (TuiEvent.keyEnter :: rest)
            = match a.selected_session with
              | some s => (a, some s.session_id)
              | none => run_tui_loop a rest from rfl, hsel]
        | none =>
          rw [show run_tui_loop a (TuiEvent.keyEnter :: rest)
            = match a.selected_session with
              | some s => (a, some s.session_id)
              | none => run_tui_loop a rest from rfl, hsel]
          exact ih a
  · intro n
    induction n with
    | zero => rfl
    | succ k ih => rw [List.replicate_succ]; exact ih

/-- **C9 counterexample.** With an empty aggregated session list, `main`
returns `Ok(())` (printing a notice) before dispatching the `jump`
subcommand, so `jump` with an unknown session id exits with code zero —
refuting the claim's "including when the aggregated session list is
empty". -/
theorem C9_counterexample :
    main_dispatch (fun _ => Except.ok ()) (Except.ok ()) []
      ["claude-watch", "jump", "xyz"] = Except.ok () := rfl

/-- **C9 (amended).** When the aggregated session list is non-empty and
the id given to `jump` matches no session, `main` returns an error (a
non-zero process exit); with an empty aggregated list the process prints
a notice and exits zero instead. -/
theorem C9_jump_unknown_id_fails
    (jump : String → Except String Unit) (tui : Except String Unit)
    (sessions : List Session) (prog sid : String) (rest : List String)
    (hne : sessions ≠ [])
    (hfind : find_session_by_id sessions sid = none) :
    main_dispatch jump tui sessions (prog :: "jump" :: sid :: rest)
      = Except.error ("セッションID " ++ sid ++ " が見つかりません") ∧
    main_dispatch jump tui [] (prog :: "jump" :: sid :: rest)
      = Except.ok () := by
  have hemp : sessions.isEmpty = false := by
    rw [← Bool.not_eq_true, List.isEmpty_iff]
    exact hne
  constructor
  · simp [main_dispatch, hemp, hfind]
  · rfl

/-- Witness for C9 (amended): a one-session list and the id `"zzz"`. -/
theorem C9_jump_unknown_id_fails_witness :
    main_dispatch (fun _ => Except.ok ()) (Except.ok ())
      [mkSession "a" "1" 1] ["claude-watch", "jump", "zzz"]
      = Except.error ("セッションID " ++ "zzz" ++ " が見つかりません") ∧
    main_dispatch (fun _ => Except.ok ()) (Except.ok ()) []
      ["claude-watch", "jump", "zzz"] = Except.ok () :=
  C9_jump_unknown_id_fails (fun _ => Except.ok ()) (Except.ok ())
    [mkSession "a" "1" 1] "claude-watch" "zzz" [] (by decide) rfl

theorem update_sessions_spec (a : App) (ss : List Session) :
    (a.update_sessions ss).sessions = ss ∧
    ((a.update_sessions ss).selected = none ↔ ss = []) ∧
    ∀ i, (a.update_sessions ss).selected = some i → i < ss.length := by
  rw [App.update_sessions]
  by_cases hss : ss.isEmpty = true
  · rw [if_pos hss]
    exact ⟨rfl, ⟨fun _ => List.isEmpty_iff.mp hss, fun _ => rfl⟩,
      fun i hi => Option.noConfusion hi⟩
  · rw [if_neg hss]
    have hne : ss ≠ [] := fun hn => hss (by rw [hn]; rfl)
    have hlen : 0 < ss.length := List.length_pos.mpr hne
    cases a.selected with
    | some idx =>
      simp only [keepSelection]
      by_cases hge : idx ≥ ss.length
      · rw [if_pos hge]
        exact ⟨trivial, ⟨fun h => Option.noConfusion h, fun h => absurd h hne⟩,
          fun i hi => by cases Option.some.inj hi; omega⟩
      · rw [if_neg hge]
        exact ⟨trivial, ⟨fun h => Option.noConfusion h, fun h => absurd h hne⟩,
          fun i hi => by cases Option.some.inj hi; omega⟩
    | none =>
      exact ⟨rfl, ⟨fun h => Option.noConfusion h, fun h => absurd h hne⟩,
        fun i hi => by cases Option.some.inj hi; omega⟩

theorem next_spec (a : App)
    (hInv : (a.selected = none ↔ a.sessions = []) ∧
      ∀ i, a.selected = some i → i < a.sessions.length) :
    (a.next.selected = none ↔ a.next.sessions = []) ∧
    ∀ i, a.next.selected = some i → i < a.next.sessions.length := by
  rw [App.next]
  by_cases hss : a.sessions.isEmpty = true
  · rw [if_pos hss]
    exact hInv
  · rw [if_neg hss]
    have hne : a.sessions ≠ [] := fun hn => hss (by rw [hn]; rfl)
    have hlen : 0 < a.sessions.length := List.length_pos.mpr hne
    refine ⟨⟨fun h => Option.noConfusion h, fun h => absurd h hne⟩, ?_⟩
    cases hs0 : a.selected with
    | none =>
      intro i hi
      cases Option.some.inj hi
      exact hlen
    | some j =>
      intro i hi
      have hj := hInv.2 j hs0
      simp only [nextIndex] at hi
      by_cases hge : j ≥ a.sessions.length - 1
      · rw [if_pos hge] at hi
        cases Option.some.inj hi
        exact hlen
      · rw [if_neg hge] at hi
        cases Option.some.inj hi
        exact show j + 1 < a.sessions.length by omega

theorem previous_spec (a : App)
    (hInv : (a.selected = none ↔ a.sessions = []) ∧
      ∀ i, a.selected = some i → i < a.sessions.length) :
    (a.previous.selected = none ↔ a.previous.sessions = []) ∧
    ∀ i, a.previous.selected = some i → i < a.previous.sessions.length := by
  rw [App.previous]
  by_cases hss : a.sessions.isEmpty = true
  · rw [if_pos hss]
    exact hInv
  · rw [if_neg hss]
    have hne : a.sessions ≠ [] := fun hn => hss (by rw [hn]; rfl)
    have hlen : 0 < a.sessions.length := List.length_pos.mpr hne
    refine ⟨⟨fun h => Option.noConfusion h, fun h => absurd h hne⟩, ?_⟩
    cases hs0 : a.selected with
    | none =>
      intro i hi
      cases Option.some.inj hi
      exact hlen
    | some j =>
      intro i hi
      have hj := hInv.2 j hs0
      simp only [prevIndex] at hi
      by_cases hz : j = 0
      · rw [if_pos hz] at hi
        cases Option.some.inj hi
        exact show a.sessions.length - 1 < a.sessions.length by omega
      · rw [if_neg hz] at hi
        cases Option.some.inj hi
        exact show j - 1 < a.sessions.length by omega

/-- **C10.** In every `App` state reachable from `App::new` by
`update_sessions`, `next` and `previous`, the selection is `Some i` with
`i < sessions.len()` exactly when the session list is non-empty and
`None` exactly when it is empty; consequently `selected_session` returns
`Some` precisely when the list is non-empty, and always returns the
element at the selected (in-bounds) index. -/
theorem C10_app_selection_invariant (a : App) (h : Reachable a) :
    (a.selected = none ↔ a.sessions = []) ∧
    (∀ i, a.selected = some i → i < a.sessions.length) ∧
    (a.selected_session.isSome = true ↔ a.sessions ≠ []) ∧
    (∀ i, a.selected = some i → a.selected_session = a.sessions[i]?) := by
  have hmain : (a.selected = none ↔ a.sessions = []) ∧
      ∀ i, a.selected = some i → i < a.sessions.length := by
    induction h with
    | new ss =>
      by_cases hss : ss.isEmpty = true
      · have hnil : ss = [] := List.isEmpty_iff.mp hss
        subst hnil
        exact ⟨⟨fun _ => rfl, fun _ => rfl⟩, fun i hi => Option.noConfusion hi⟩
      · have hne : ss ≠ [] := fun hn => hss (by rw [hn]; rfl)
        have hlen : 0 < ss.length := List.length_pos.mpr hne
        have hsel : (App.new ss).selected = some 0 := by
          rw [App.new]
          simp only
          rw [if_neg hss]
        refine ⟨⟨fun hn => absurd (hsel.symm.trans hn) (fun hx =>
          Option.noConfusion hx), fun hn => absurd hn hne⟩, fun i hi => ?_⟩
        cases Option.some.inj (hsel.symm.trans hi)
        exact hlen
    | update ss hra ih =>
      rename_i a0
      obtain ⟨hses, hiff, hlt⟩ := update_sessions_spec a0 ss
      refine ⟨by rw [hses]; exact hiff, fun i hi => ?_⟩
      rw [hses]
      exact hlt i hi
    | next hra ih =>
      rename_i a0
      exact next_spec a0 ih
    | prev hra ih =>
      rename_i a0
      exact previous_spec a0 ih
  refine ⟨hmain.1, hmain.2, ?_, fun i hi => ?_⟩
  · constructor
    · intro hsome hnil
      have hsel : a.selected = none := hmain.1.mpr hnil
      rw [App.selected_session, hsel] at hsome
      exact Bool.noConfusion hsome
    · intro hne
      cases hs0 : a.selected with
      | none => exact absurd (hmain.1.mp hs0) hne
      | some i =>
        have hlt := hmain.2 i hs0
        rw [App.selected_session, hs0, Option.some_bind,
          List.getElem?_eq_getElem hlt]
        rfl
  · rw [App.selected_session, hi]
    rfl

/-- Witness for C10 at a freshly constructed one-session dashboard. -/
theorem C10_app_selection_invariant_witness :
    ((App.new [mkSession "a" "1" 1]).selected = none ↔
      (App.new [mkSession "a" "1" 1]).sessions = []) ∧
    (∀ i, (App.new [mkSession "a" "1" 1]).selected = some i →
      i < (App.new [mkSession "a" "1" 1]).sessions.length) ∧
    ((App.new [mkSession "a" "1" 1]).selected_session.isSome = true ↔
      (App.new [mkSession "a" "1" 1]).sessions ≠ []) ∧
    (∀ i, (App.new [mkSession "a" "1" 1]).selected = some i →
      (App.new [mkSession "a" "1" 1]).selected_session
        = (App.new [mkSession "a" "1" 1]).sessions[i]?) :=
  C10_app_selection_invariant (App.new [mkSession "a" "1" 1])
    (Reachable.new [mkSession "a" "1" 1])
